import Mathlib

/-!
Shallow embedding of the trivia game core from `src/types.ts` and the main
application component (`src/unnamed/part_000`).

The React component's `useState` cells are gathered into one `AppState`
record, and each `handle*` callback becomes a pure state-transition
function.  Randomness (the shuffle inside `selectSessionQuestions` and the
random index inside `handleSelectDifficulty`) is made explicit: the shuffle
is a parameter constrained to be a permutation where a claim needs it, and
the random index is an arbitrary natural number reduced modulo the list
length, which ranges over exactly the indices `Math.floor(Math.random() *
length)` can produce.
-/

/-- `GameState` enum from `types.ts`. -/
inductive GameState where
  | Start
  | ChoosingDifficulty
  | Answering
  | Answered
  | GameOver
deriving DecidableEq, Repr

/-- `Difficulty` union type from `types.ts`: the four fixed tiers. -/
inductive Difficulty where
  | Facil
  | Medio
  | Dificil
  | Experto
deriving DecidableEq, Repr

/-- `TriviaQuestion` interface from `types.ts`. -/
structure TriviaQuestion where
  id : Nat
  nivel : Difficulty
  categoria : String
  subcategoria : String
  pregunta : String
  opciones : List String
  respuesta_correcta : String
  explicacion : String
  tipo : String
  puntuacion : Nat
deriving DecidableEq, Repr

/-- `Feedback` interface from `types.ts`. -/
structure Feedback where
  isCorrect : Bool
  correctAnswer : String
  explanation : String
deriving DecidableEq, Repr

/-- Modelled from the spec: the `DIFFICULTIES` constant lives in
`constants.ts`, which is not among the provided source files; the spec fixes
it as the tier enumeration, ordered easiest to hardest, matching the order of
the `Difficulty` union in `types.ts`. -/
def DIFFICULTIES : List Difficulty :=
  [Difficulty.Facil, Difficulty.Medio, Difficulty.Dificil, Difficulty.Experto]

/-- `QUESTIONS_PER_DIFFICULTY` constant from the App component. -/
def QUESTIONS_PER_DIFFICULTY : Nat := 10

/-- The `useState` cells of the `App` component, gathered into one record. -/
structure AppState where
  gameState : GameState
  allQuestions : List TriviaQuestion
  sessionQuestions : List TriviaQuestion
  usedQuestionIds : Finset Nat
  currentQuestion : Option TriviaQuestion
  score : Nat
  selectedAnswer : Option String
  feedback : Option Feedback
deriving DecidableEq

/-- `selectSessionQuestions`: per tier, filter the bank, shuffle, take the
first `QUESTIONS_PER_DIFFICULTY`, and concatenate in tier order.  The
random sort-comparator shuffle is abstracted as the `shuffle` parameter. -/
def selectSessionQuestions (allQuestions : List TriviaQuestion)
    (shuffle : Difficulty → List TriviaQuestion → List TriviaQuestion) :
    List TriviaQuestion :=
  if allQuestions.length = 0 then []
  else
    DIFFICULTIES.flatMap fun difficulty =>
      (shuffle difficulty
        (allQuestions.filter fun q => q.nivel == difficulty)).take
        QUESTIONS_PER_DIFFICULTY

/-- `availableQuestionsByDifficulty`: the memoized map is modelled as a
function on tiers (every tier is a key, since the code populates one entry
per element of `DIFFICULTIES`). -/
def availableQuestionsByDifficulty (sessionQuestions : List TriviaQuestion)
    (usedQuestionIds : Finset Nat) (diff : Difficulty) :
    List TriviaQuestion :=
  sessionQuestions.filter fun q =>
    q.nivel == diff && !(decide (q.id ∈ usedQuestionIds))

/-- `availableCounts`: per-tier length of the available list. -/
def availableCounts (sessionQuestions : List TriviaQuestion)
    (usedQuestionIds : Finset Nat) (diff : Difficulty) : Nat :=
  (availableQuestionsByDifficulty sessionQuestions usedQuestionIds
    diff).length

/-- `isGameFinished`: false for an empty session, otherwise
`usedQuestionIds.size >= sessionQuestions.length`. -/
def isGameFinished (sessionQuestions : List TriviaQuestion)
    (usedQuestionIds : Finset Nat) : Bool :=
  if sessionQuestions.length = 0 then false
  else decide (sessionQuestions.length ≤ usedQuestionIds.card)

/-- `handleStartGame`: reset every cell, build a fresh session from the
bank, and move to `ChoosingDifficulty`. -/
def handleStartGame (s : AppState)
    (shuffle : Difficulty → List TriviaQuestion → List TriviaQuestion) :
    AppState :=
  { gameState := GameState.ChoosingDifficulty
    allQuestions := s.allQuestions
    sessionQuestions := selectSessionQuestions s.allQuestions shuffle
    usedQuestionIds := ∅
    currentQuestion := none
    score := 0
    selectedAnswer := none
    feedback := none }

/-- `handleSelectDifficulty`: if the tier has an available question, pick
one (random index modelled by `pick % length`), mark it used, clear the
answer and feedback, and move to `Answering`; otherwise do nothing. -/
def handleSelectDifficulty (s : AppState) (difficulty : Difficulty)
    (pick : Nat) : AppState :=
  let availableQuestions :=
    availableQuestionsByDifficulty s.sessionQuestions s.usedQuestionIds
      difficulty
  if h : 0 < availableQuestions.length then
    let question :=
      availableQuestions.get ⟨pick % availableQuestions.length,
        Nat.mod_lt pick h⟩
    { s with
      currentQuestion := some question
      usedQuestionIds := insert question.id s.usedQuestionIds
      gameState := GameState.Answering
      selectedAnswer := none
      feedback := none }
  else s

/-- `handleAnswer`: no-op without a current question; otherwise compare the
answer string, add the question's points when correct, record the feedback
and the submitted answer, and move to `Answered`. -/
def handleAnswer (s : AppState) (answer : String) : AppState :=
  match s.currentQuestion with
  | none => s
  | some currentQuestion =>
    let isCorrect := answer == currentQuestion.respuesta_correcta
    { s with
      selectedAnswer := some answer
      score :=
        if isCorrect then s.score + currentQuestion.puntuacion else s.score
      feedback := some
        { isCorrect := isCorrect
          correctAnswer := currentQuestion.respuesta_correcta
          explanation := currentQuestion.explicacion }
      gameState := GameState.Answered }

/-- `handleContinue`: to `GameOver` when the session is finished, else back
to `ChoosingDifficulty`. -/
def handleContinue (s : AppState) : AppState :=
  if isGameFinished s.sessionQuestions s.usedQuestionIds then
    { s with gameState := GameState.GameOver }
  else
    { s with gameState := GameState.ChoosingDifficulty }

/-- `handleEndGame`: set the phase to `GameOver`, touching nothing else. -/
def handleEndGame (s : AppState) : AppState :=
  { s with gameState := GameState.GameOver }

/-- The user events available within one session (everything except
`startGame`, which begins a new session). -/
inductive GameEvent where
  | selectDifficulty (difficulty : Difficulty) (pick : Nat)
  | submitAnswer (answer : String)
  | continueGame
  | endGame
deriving DecidableEq, Repr

/-- Dispatch one event to its handler. -/
def step (s : AppState) : GameEvent → AppState
  | GameEvent.selectDifficulty difficulty pick =>
    handleSelectDifficulty s difficulty pick
  | GameEvent.submitAnswer answer => handleAnswer s answer
  | GameEvent.continueGame => handleContinue s
  | GameEvent.endGame => handleEndGame s

/-- Run a sequence of in-session events. -/
def run (s : AppState) (es : List GameEvent) : AppState :=
  es.foldl step s

/-- Points credited by one event: the current question's point value when
the event submits its exact correct-answer string, zero otherwise. -/
def credit (s : AppState) : GameEvent → Nat
  | GameEvent.submitAnswer answer =>
    match s.currentQuestion with
    | some q => if answer == q.respuesta_correcta then q.puntuacion else 0
    | none => 0
  | _ => 0

/-- Modelled from the spec: "the sum of the point values of the
correctly-answered Questions" along a trace of events. -/
def earnedPoints : AppState → List GameEvent → Nat
  | _, [] => 0
  | s, e :: es => credit s e + earnedPoints (step s e) es

/-- A concrete question used to instantiate theorems on explicit inputs. -/
def sampleQ : TriviaQuestion :=
  { id := 7
    nivel := Difficulty.Facil
    categoria := "Historia"
    subcategoria := "Exodo"
    pregunta := "Quien guio a Israel fuera de Egipto?"
    opciones := ["Moises", "Aaron", "Josue", "Caleb"]
    respuesta_correcta := "Moises"
    explicacion := "Moises guio al pueblo fuera de Egipto."
    tipo := "multiple"
    puntuacion := 5 }

/-- A concrete state at the difficulty-choice screen, one-question session. -/
def sampleState : AppState :=
  { gameState := GameState.ChoosingDifficulty
    allQuestions := [sampleQ]
    sessionQuestions := [sampleQ]
    usedQuestionIds := ∅
    currentQuestion := none
    score := 0
    selectedAnswer := none
    feedback := none }

/-- A concrete state in which `sampleQ` is being answered. -/
def answeringState : AppState :=
  { sampleState with
    gameState := GameState.Answering
    usedQuestionIds := {7}
    currentQuestion := some sampleQ }

/-- A concrete state in which every session question has been used. -/
def usedUpState : AppState :=
  { sampleState with
    gameState := GameState.Answered
    usedQuestionIds := {7}
    currentQuestion := some sampleQ }

/-- The per-tier body of `selectSessionQuestions`: filter the bank to one
tier, shuffle, and keep the first `QUESTIONS_PER_DIFFICULTY`. -/
def sessionGroup (B : List TriviaQuestion)
    (shuffle : Difficulty → List TriviaQuestion → List TriviaQuestion)
    (d : Difficulty) : List TriviaQuestion :=
  (shuffle d (B.filter fun q => q.nivel == d)).take QUESTIONS_PER_DIFFICULTY

/-- Claim C1, amended: for a nonempty session whose used-set is no larger
than the session, `isGameFinished` is true iff the used-set size equals the
session size; on the empty session `isGameFinished` is false. -/
theorem C1_isFinished_iff (session : List TriviaQuestion) (used : Finset Nat) :
    isGameFinished [] used = false ∧
    (session ≠ [] → used.card ≤ session.length →
      (isGameFinished session used = true ↔ used.card = session.length)) := by
  constructor
  · rfl
  · intro hne hle
    unfold isGameFinished
    rw [if_neg (fun h => hne (List.length_eq_zero.mp h))]
    simp only [decide_eq_true_eq]
    omega

/-- Witness for C1: at a one-question session with its question used, the
amended biconditional yields `isGameFinished = true`; on the empty session
it is `false`. -/
theorem C1_isFinished_iff_witness :
    isGameFinished [] {7} = false ∧ isGameFinished [sampleQ] {7} = true :=
  ⟨(C1_isFinished_iff [] {7}).1,
   ((C1_isFinished_iff [sampleQ] {7}).2 (by decide) (by decide)).mpr
     (by decide)⟩

/-- Counterexample to C1 as stated: on the empty session with the empty
used-set the two sizes are equal (both zero) yet `isGameFinished` is false;
and with more used identifiers than session questions `isGameFinished` is
true (the code compares with `>=`) although the sizes differ. -/
theorem C1_counterexample :
    ¬ (isGameFinished [] ∅ = true ↔
        (∅ : Finset Nat).card = ([] : List TriviaQuestion).length) ∧
    ¬ (isGameFinished [sampleQ] {1, 2} = true ↔
        ({1, 2} : Finset Nat).card = [sampleQ].length) := by
  decide

/-- Claim C7: `handleStartGame` is defined on every state; afterwards the
score is 0, the used-set is empty, current question, answer and feedback are
cleared, the session is freshly built by `selectSessionQuestions` from the
bank, and the phase is `ChoosingDifficulty`, not `Start`. -/
theorem C7_startGame (s : AppState)
    (shuffle : Difficulty → List TriviaQuestion → List TriviaQuestion) :
    (handleStartGame s shuffle).score = 0 ∧
    (handleStartGame s shuffle).usedQuestionIds = ∅ ∧
    (handleStartGame s shuffle).currentQuestion = none ∧
    (handleStartGame s shuffle).selectedAnswer = none ∧
    (handleStartGame s shuffle).feedback = none ∧
    (handleStartGame s shuffle).sessionQuestions =
      selectSessionQuestions s.allQuestions shuffle ∧
    (handleStartGame s shuffle).gameState = GameState.ChoosingDifficulty ∧
    (handleStartGame s shuffle).gameState ≠ GameState.Start :=
  ⟨rfl, rfl, rfl, rfl, rfl, rfl, rfl, by simp [handleStartGame]⟩

/-- Claim C9: `handleEndGame` only sets the phase to `GameOver`; every other
component of the state is unchanged. -/
theorem C9_endGame (s : AppState) :
    (handleEndGame s).gameState = GameState.GameOver ∧
    (handleEndGame s).score = s.score ∧
    (handleEndGame s).usedQuestionIds = s.usedQuestionIds ∧
    (handleEndGame s).sessionQuestions = s.sessionQuestions ∧
    (handleEndGame s).currentQuestion = s.currentQuestion ∧
    (handleEndGame s).selectedAnswer = s.selectedAnswer ∧
    (handleEndGame s).feedback = s.feedback ∧
    (handleEndGame s).allQuestions = s.allQuestions :=
  ⟨rfl, rfl, rfl, rfl, rfl, rfl, rfl, rfl⟩

/-- Claim C8: with a current question set, submitting a string different
from the correct answer leaves the score unchanged, records the answer and
a feedback with `isCorrect = false`, the correct answer and the
explanation, and moves to `Answered`. -/
theorem C8_wrongAnswer (s : AppState) (q : TriviaQuestion) (answer : String)
    (hq : s.currentQuestion = some q)
    (hne : answer ≠ q.respuesta_correcta) :
    handleAnswer s answer =
      { s with
        selectedAnswer := some answer
        feedback := some
          { isCorrect := false
            correctAnswer := q.respuesta_correcta
            explanation := q.explicacion }
        gameState := GameState.Answered } ∧
    (handleAnswer s answer).score = s.score := by
  have hb : (answer == q.respuesta_correcta) = false := by
    simp [hne]
  constructor
  · simp [handleAnswer, hq, hb]
  · simp [handleAnswer, hq, hb]

/-- Witness for C8: submitting "Aaron" against `sampleQ` (correct answer
"Moises") leaves the score at 0. -/
theorem C8_wrongAnswer_witness :
    (handleAnswer answeringState "Aaron").score = 0 :=
  (C8_wrongAnswer answeringState sampleQ "Aaron" rfl (by decide)).2

/-- With a current question set, `handleAnswer` keeps it set. -/
theorem handleAnswer_currentQuestion (t : AppState) (q : TriviaQuestion)
    (a : String) (hq : t.currentQuestion = some q) :
    (handleAnswer t a).currentQuestion = some q := by
  simp [handleAnswer, hq]

/-- With a current question set, `handleAnswer` adds its points exactly when
the submitted string equals the correct answer. -/
theorem handleAnswer_score (t : AppState) (q : TriviaQuestion) (a : String)
    (hq : t.currentQuestion = some q) :
    (handleAnswer t a).score =
      t.score + (if a = q.respuesta_correcta then q.puntuacion else 0) := by
  by_cases hc : a = q.respuesta_correcta <;> simp [handleAnswer, hq, hc]

/-- Claim C10: `handleAnswer` is guarded only by the current question being
absent, not by the phase: with no current question it is a no-op, and with a
current question set (whatever the phase, including `Answered`, where the
current question is still set) it scores, records feedback and moves to
`Answered`; hence submitting the correct answer twice in a row credits the
question's points twice. -/
theorem C10_answerGuard (s : AppState) (answer : String) :
    (s.currentQuestion = none → handleAnswer s answer = s) ∧
    (∀ q, s.currentQuestion = some q →
      (handleAnswer s answer).gameState = GameState.Answered ∧
      (handleAnswer s answer).currentQuestion = some q ∧
      (handleAnswer s answer).score =
        s.score + (if answer = q.respuesta_correcta then q.puntuacion else 0) ∧
      (handleAnswer (handleAnswer s q.respuesta_correcta)
          q.respuesta_correcta).score = s.score + 2 * q.puntuacion) := by
  constructor
  · intro h
    simp [handleAnswer, h]
  · intro q hq
    refine ⟨by simp [handleAnswer, hq], handleAnswer_currentQuestion s q answer hq,
      handleAnswer_score s q answer hq, ?_⟩
    have h1 := handleAnswer_currentQuestion s q q.respuesta_correcta hq
    have h1s := handleAnswer_score s q q.respuesta_correcta hq
    have h2 := handleAnswer_score (handleAnswer s q.respuesta_correcta) q
      q.respuesta_correcta h1
    rw [h2, h1s, if_pos rfl]
    ring

/-- Witness for C10: with no current question the call is a no-op, and
submitting the correct answer to `sampleQ` twice in a row from
`answeringState` (score 0, 5 points) yields score 10. -/
theorem C10_answerGuard_witness :
    handleAnswer sampleState "Moises" = sampleState ∧
    (handleAnswer (handleAnswer answeringState "Moises") "Moises").score =
      10 :=
  ⟨(C10_answerGuard sampleState "Moises").1 rfl,
   ((C10_answerGuard answeringState "Moises").2 sampleQ rfl).2.2.2⟩

/-- One event changes the score by exactly `credit`. -/
theorem step_score_eq (s : AppState) (e : GameEvent) :
    (step s e).score = s.score + credit s e := by
  cases e with
  | selectDifficulty d p =>
    simp only [step, credit, handleSelectDifficulty]
    split <;> simp
  | submitAnswer a =>
    simp only [step, credit, handleAnswer]
    cases hq : s.currentQuestion with
    | none => simp
    | some q =>
      cases hc : (a == q.respuesta_correcta) <;> simp [hc]
  | continueGame =>
    simp only [step, credit, handleContinue]
    split <;> simp
  | endGame =>
    simp [step, credit, handleEndGame]

/-- A run of events changes the score by exactly the earned points. -/
theorem run_score_eq (s : AppState) (es : List GameEvent) :
    (run s es).score = s.score + earnedPoints s es := by
  induction es generalizing s with
  | nil => simp [run, earnedPoints]
  | cons e es ih =>
    show (run (step s e) es).score = s.score + earnedPoints s (e :: es)
    rw [ih (step s e), step_score_eq s e, earnedPoints]
    ring

/-- Claim C2: over any in-session event sequence, the score grows by
exactly the sum of the point values of the correctly answered questions
(`earnedPoints`), so it never decreases; and any one event either leaves
the score unchanged or adds exactly the point value of the current question
whose submitted answer equals its correct-answer string. -/
theorem C2_score_accounting (s : AppState) (es : List GameEvent)
    (e : GameEvent) :
    (run s es).score = s.score + earnedPoints s es ∧
    s.score ≤ (run s es).score ∧
    ((step s e).score = s.score ∨
      ∃ q a, e = GameEvent.submitAnswer a ∧ s.currentQuestion = some q ∧
        a = q.respuesta_correcta ∧
        (step s e).score = s.score + q.puntuacion) := by
  refine ⟨run_score_eq s es, ?_, ?_⟩
  · rw [run_score_eq s es]
    exact Nat.le_add_right _ _
  · have h := step_score_eq s e
    cases e with
    | selectDifficulty d p =>
      left
      rw [h]
      simp [credit]
    | submitAnswer a =>
      cases hq : s.currentQuestion with
      | none =>
        left
        rw [h]
        simp [credit, hq]
      | some q =>
        cases hc : (a == q.respuesta_correcta) with
        | false =>
          left
          rw [h]
          simp [credit, hq, hc]
        | true =>
          right
          refine ⟨q, a, rfl, rfl, by simpa using hc, ?_⟩
          rw [h]
          simp [credit, hq, hc]
    | continueGame =>
      left
      rw [h]
      simp [credit]
    | endGame =>
      left
      rw [h]
      simp [credit]

/-- Claim C5: when the chosen tier has no available question,
`handleSelectDifficulty` returns the state unchanged; when at least one is
available, it returns the state with one available question of that tier
made current, its identifier inserted into the used-set, the answer and
feedback cleared, and the phase set to `Answering`. -/
theorem C5_selectDifficulty (s : AppState) (difficulty : Difficulty)
    (pick : Nat) :
    (availableQuestionsByDifficulty s.sessionQuestions s.usedQuestionIds
        difficulty = [] →
      handleSelectDifficulty s difficulty pick = s) ∧
    (availableQuestionsByDifficulty s.sessionQuestions s.usedQuestionIds
        difficulty ≠ [] →
      ∃ q, q ∈ availableQuestionsByDifficulty s.sessionQuestions
          s.usedQuestionIds difficulty ∧
        handleSelectDifficulty s difficulty pick =
          { s with
            currentQuestion := some q
            usedQuestionIds := insert q.id s.usedQuestionIds
            gameState := GameState.Answering
            selectedAnswer := none
            feedback := none }) := by
  constructor
  · intro h
    have hlen : ¬ 0 < (availableQuestionsByDifficulty s.sessionQuestions
        s.usedQuestionIds difficulty).length := by
      simp [h]
    simp only [handleSelectDifficulty]
    rw [dif_neg hlen]
  · intro h
    have hlen : 0 < (availableQuestionsByDifficulty s.sessionQuestions
        s.usedQuestionIds difficulty).length := List.length_pos.mpr h
    refine ⟨(availableQuestionsByDifficulty s.sessionQuestions
        s.usedQuestionIds difficulty).get
        ⟨pick % _, Nat.mod_lt pick hlen⟩, List.get_mem _ _ _, ?_⟩
    simp only [handleSelectDifficulty]
    rw [dif_pos hlen]

/-- Witness for C5: from `usedUpState` (its one question already used) the
call is a no-op, and from `sampleState` the call succeeds as described. -/
theorem C5_selectDifficulty_witness :
    handleSelectDifficulty usedUpState Difficulty.Facil 3 = usedUpState ∧
    (∃ q, q ∈ availableQuestionsByDifficulty sampleState.sessionQuestions
        sampleState.usedQuestionIds Difficulty.Facil ∧
      handleSelectDifficulty sampleState Difficulty.Facil 0 =
        { sampleState with
          currentQuestion := some q
          usedQuestionIds := insert q.id sampleState.usedQuestionIds
          gameState := GameState.Answering
          selectedAnswer := none
          feedback := none }) :=
  ⟨(C5_selectDifficulty usedUpState Difficulty.Facil 3).1 (by decide),
   (C5_selectDifficulty sampleState Difficulty.Facil 0).2 (by decide)⟩

/-- Membership in the per-tier availability list, unfolded. -/
theorem avail_mem_iff (S : List TriviaQuestion) (U : Finset Nat)
    (T : Difficulty) (q : TriviaQuestion) :
    q ∈ availableQuestionsByDifficulty S U T ↔
      q ∈ S ∧ q.nivel = T ∧ q.id ∉ U := by
  simp [availableQuestionsByDifficulty, List.mem_filter, and_assoc]

/-- No single in-session event removes identifiers from the used-set. -/
theorem used_subset_step (s : AppState) (e : GameEvent) :
    s.usedQuestionIds ⊆ (step s e).usedQuestionIds := by
  cases e with
  | selectDifficulty d p =>
    simp only [step, handleSelectDifficulty]
    split
    · exact Finset.subset_insert _ _
    · exact Finset.Subset.refl _
  | submitAnswer a =>
    simp only [step, handleAnswer]
    cases hq : s.currentQuestion <;> simp
  | continueGame =>
    simp only [step, handleContinue]
    split <;> simp
  | endGame =>
    simp [step, handleEndGame]

/-- Claim C6: `handleSelectDifficulty` only ever installs a question whose
identifier is not yet in the used-set, and the used-set grows monotonically
along any sequence of in-session events (`startGame` is not among them). -/
theorem C6_noRepeat (s : AppState) :
    (∀ difficulty pick q,
      availableQuestionsByDifficulty s.sessionQuestions s.usedQuestionIds
          difficulty ≠ [] →
      (handleSelectDifficulty s difficulty pick).currentQuestion = some q →
      q.id ∉ s.usedQuestionIds) ∧
    (∀ es : List GameEvent,
      s.usedQuestionIds ⊆ (run s es).usedQuestionIds) := by
  constructor
  · intro difficulty pick q hne hq
    have hlen : 0 < (availableQuestionsByDifficulty s.sessionQuestions
        s.usedQuestionIds difficulty).length := List.length_pos.mpr hne
    simp only [handleSelectDifficulty, dif_pos hlen] at hq
    have hmem : q ∈ availableQuestionsByDifficulty s.sessionQuestions
        s.usedQuestionIds difficulty := by
      rw [← Option.some.inj hq]
      exact List.get_mem _ _ _
    exact ((avail_mem_iff _ _ _ q).mp hmem).2.2
  · intro es
    induction es generalizing s with
    | nil => exact Finset.Subset.refl _
    | cons e es ih =>
      exact (used_subset_step s e).trans (ih (step s e))

/-- Witness for C6: the question picked from `sampleState` was not yet
used, and the used-set of `sampleState` survives a concrete run. -/
theorem C6_noRepeat_witness :
    sampleQ.id ∉ sampleState.usedQuestionIds ∧
    sampleState.usedQuestionIds ⊆
      (run sampleState [GameEvent.selectDifficulty Difficulty.Facil 0,
        GameEvent.submitAnswer "Moises"]).usedQuestionIds :=
  ⟨(C6_noRepeat sampleState).1 Difficulty.Facil 0 sampleQ (by decide)
      (by decide),
   (C6_noRepeat sampleState).2 _⟩

/-- A question whose identifier is used does not enter any availability
list when prepended to the session. -/
theorem avail_cons_used (q : TriviaQuestion) (S : List TriviaQuestion)
    (U : Finset Nat) (d : Difficulty) (hu : q.id ∈ U) :
    availableQuestionsByDifficulty (q :: S) U d =
      availableQuestionsByDifficulty S U d := by
  simp [availableQuestionsByDifficulty, List.filter_cons, hu]

/-- A question of another tier does not enter that tier's availability
list when prepended to the session. -/
theorem avail_cons_ne (q : TriviaQuestion) (S : List TriviaQuestion)
    (U : Finset Nat) {d : Difficulty} (hd : q.nivel ≠ d) :
    availableQuestionsByDifficulty (q :: S) U d =
      availableQuestionsByDifficulty S U d := by
  simp [availableQuestionsByDifficulty, List.filter_cons, hd]

/-- An unused question heads its own tier's availability list when
prepended to the session. -/
theorem avail_cons_self (q : TriviaQuestion) (S : List TriviaQuestion)
    (U : Finset Nat) (hu : q.id ∉ U) :
    availableQuestionsByDifficulty (q :: S) U q.nivel =
      q :: availableQuestionsByDifficulty S U q.nivel := by
  simp [availableQuestionsByDifficulty, List.filter_cons, hu]

/-- Prepending a used question changes no tier's availability list. -/
theorem flatMap_avail_used (q : TriviaQuestion) (S : List TriviaQuestion)
    (U : Finset Nat) (ds : List Difficulty) (hu : q.id ∈ U) :
    (ds.flatMap fun d => availableQuestionsByDifficulty (q :: S) U d) =
      ds.flatMap fun d => availableQuestionsByDifficulty S U d := by
  induction ds with
  | nil => rfl
  | cons d ds ih =>
    rw [List.flatMap_cons, List.flatMap_cons, avail_cons_used q S U d hu, ih]

/-- Prepending a question whose tier is outside `ds` changes none of the
availability lists drawn from `ds`. -/
theorem flatMap_avail_not_mem (q : TriviaQuestion)
    (S : List TriviaQuestion) (U : Finset Nat) (ds : List Difficulty)
    (h : q.nivel ∉ ds) :
    (ds.flatMap fun d => availableQuestionsByDifficulty (q :: S) U d) =
      ds.flatMap fun d => availableQuestionsByDifficulty S U d := by
  induction ds with
  | nil => rfl
  | cons d ds ih =>
    simp only [List.mem_cons, not_or] at h
    rw [List.flatMap_cons, List.flatMap_cons, avail_cons_ne q S U h.1,
      ih h.2]

/-- Prepending an unused question adds it exactly once across the per-tier
availability lists drawn from a duplicate-free tier list containing its
tier. -/
theorem flatMap_avail_cons (q : TriviaQuestion) (S : List TriviaQuestion)
    (U : Finset Nat) (ds : List Difficulty) (hu : q.id ∉ U)
    (hnd : ds.Nodup) (hm : q.nivel ∈ ds) :
    (ds.flatMap fun d =>
        availableQuestionsByDifficulty (q :: S) U d).Perm
      (q :: ds.flatMap fun d => availableQuestionsByDifficulty S U d) := by
  induction ds with
  | nil => cases hm
  | cons d ds ih =>
    rw [List.flatMap_cons, List.flatMap_cons]
    by_cases hd : q.nivel = d
    · subst hd
      rw [avail_cons_self q S U hu,
        flatMap_avail_not_mem q S U ds (List.nodup_cons.mp hnd).1]
      exact List.Perm.refl _
    · rw [avail_cons_ne q S U hd]
      have hm' : q.nivel ∈ ds := by
        cases List.mem_cons.mp hm with
        | inl h => exact absurd h hd
        | inr h => exact h
      have ih' := ih (List.nodup_cons.mp hnd).2 hm'
      exact (ih'.append_left _).trans List.perm_middle

/-- Every tier is in the fixed tier enumeration. -/
theorem mem_DIFFICULTIES (d : Difficulty) : d ∈ DIFFICULTIES := by
  cases d <;> decide

/-- The per-tier availability lists together with the used session members
are a permutation of the whole session. -/
theorem avail_partition (S : List TriviaQuestion) (U : Finset Nat) :
    ((DIFFICULTIES.flatMap fun d =>
        availableQuestionsByDifficulty S U d) ++
      S.filter fun q => decide (q.id ∈ U)).Perm S := by
  induction S with
  | nil => simp [availableQuestionsByDifficulty, DIFFICULTIES]
  | cons q S ih =>
    by_cases hu : q.id ∈ U
    · rw [flatMap_avail_used q S U DIFFICULTIES hu,
        show ((q :: S).filter fun q' => decide (q'.id ∈ U)) =
          q :: S.filter fun q' => decide (q'.id ∈ U) by
            simp [List.filter_cons, hu]]
      exact List.perm_middle.trans (ih.cons q)
    · rw [show ((q :: S).filter fun q' => decide (q'.id ∈ U)) =
          S.filter fun q' => decide (q'.id ∈ U) by
            simp [List.filter_cons, hu]]
      have h1 := flatMap_avail_cons q S U DIFFICULTIES hu (by decide)
        (mem_DIFFICULTIES q.nivel)
      exact ((h1.append_right _).trans (List.Perm.refl _)).trans (ih.cons q)

/-- Claim C3: each per-tier availability list is a subsequence of the
session (preserving session order) whose members are exactly the session
questions of that tier with unused identifier; and across the tiers these
lists, together with the used session members, carry each session
identifier exactly once (a permutation of the session's identifiers). -/
theorem C3_availability (S : List TriviaQuestion) (U : Finset Nat)
    (T : Difficulty) :
    (availableQuestionsByDifficulty S U T).Sublist S ∧
    (∀ q, q ∈ availableQuestionsByDifficulty S U T ↔
      q ∈ S ∧ q.nivel = T ∧ q.id ∉ U) ∧
    ((DIFFICULTIES.flatMap fun d =>
        (availableQuestionsByDifficulty S U d).map TriviaQuestion.id) ++
      (S.filter fun q => decide (q.id ∈ U)).map TriviaQuestion.id).Perm
      (S.map TriviaQuestion.id) := by
  refine ⟨List.filter_sublist S, fun q => avail_mem_iff S U T q, ?_⟩
  have h := (avail_partition S U).map TriviaQuestion.id
  rw [List.map_append, List.map_flatMap] at h
  exact h

/-- When the shuffle permutes its input, every member of a session group
has that group's tier and comes from the bank. -/
theorem mem_sessionGroup (B : List TriviaQuestion)
    (shuffle : Difficulty → List TriviaQuestion → List TriviaQuestion)
    (hsh : ∀ d l, (shuffle d l).Perm l) (d : Difficulty)
    (q : TriviaQuestion) (hq : q ∈ sessionGroup B shuffle d) :
    q.nivel = d ∧ q ∈ B := by
  have h1 : q ∈ shuffle d (B.filter fun q' => q'.nivel == d) :=
    List.mem_of_mem_take hq
  have h2 : q ∈ B.filter fun q' => q'.nivel == d :=
    ((hsh d _).mem_iff).mp h1
  have h3 := List.mem_filter.mp h2
  exact ⟨by simpa using h3.2, h3.1⟩

/-- `selectSessionQuestions` is the tier-ordered concatenation of the
session groups (also for the empty bank, since every group is then
empty). -/
theorem sel_eq_flatMap (B : List TriviaQuestion)
    (shuffle : Difficulty → List TriviaQuestion → List TriviaQuestion)
    (hsh : ∀ d l, (shuffle d l).Perm l) :
    selectSessionQuestions B shuffle =
      DIFFICULTIES.flatMap (sessionGroup B shuffle) := by
  unfold selectSessionQuestions
  split
  · have hB : B = [] := List.length_eq_zero.mp (by assumption)
    subst hB
    have hg : ∀ d, sessionGroup [] shuffle d = [] := by
      intro d
      have h0 : shuffle d ([] : List TriviaQuestion) = [] :=
        (hsh d []).eq_nil
      simp [sessionGroup, h0]
    simp [DIFFICULTIES, hg]
  · rfl

/-- A session group's length is at most the quota. -/
theorem sessionGroup_length_le (B : List TriviaQuestion)
    (shuffle : Difficulty → List TriviaQuestion → List TriviaQuestion)
    (d : Difficulty) :
    (sessionGroup B shuffle d).length ≤ QUESTIONS_PER_DIFFICULTY :=
  List.length_take_le _ _

/-- Filtering a session group by a different tier yields nothing. -/
theorem filter_sessionGroup_ne (B : List TriviaQuestion)
    (shuffle : Difficulty → List TriviaQuestion → List TriviaQuestion)
    (hsh : ∀ d l, (shuffle d l).Perm l) {d T : Difficulty} (hne : d ≠ T) :
    (sessionGroup B shuffle d).filter (fun q => q.nivel == T) = [] := by
  rw [List.filter_eq_nil_iff]
  intro a ha
  have h := (mem_sessionGroup B shuffle hsh d a ha).1
  simp [h, hne]

/-- Claim C4: for a permuting shuffle, `selectSessionQuestions` keeps at
most `QUESTIONS_PER_DIFFICULTY` (= 10) questions of each tier, draws only
questions from the bank, is the concatenation of its per-tier groups in
the fixed tier enumeration order (each group containing only its own
tier), and returns the empty sequence on the empty bank. -/
theorem C4_buildSession (B : List TriviaQuestion)
    (shuffle : Difficulty → List TriviaQuestion → List TriviaQuestion)
    (hsh : ∀ d l, (shuffle d l).Perm l) :
    (∀ T, ((selectSessionQuestions B shuffle).filter fun q =>
        q.nivel == T).length ≤ QUESTIONS_PER_DIFFICULTY) ∧
    (∀ q, q ∈ selectSessionQuestions B shuffle → q ∈ B) ∧
    (selectSessionQuestions B shuffle =
        DIFFICULTIES.flatMap (sessionGroup B shuffle) ∧
      ∀ d, (∀ q, q ∈ sessionGroup B shuffle d → q.nivel = d) ∧
        (sessionGroup B shuffle d).length ≤ QUESTIONS_PER_DIFFICULTY) ∧
    selectSessionQuestions [] shuffle = [] := by
  refine ⟨?_, ?_, ⟨sel_eq_flatMap B shuffle hsh, fun d =>
    ⟨fun q hq => (mem_sessionGroup B shuffle hsh d q hq).1,
     sessionGroup_length_le B shuffle d⟩⟩, rfl⟩
  · intro T
    rw [sel_eq_flatMap B shuffle hsh]
    simp only [DIFFICULTIES, List.flatMap_cons, List.flatMap_nil,
      List.append_nil, List.filter_append, List.length_append]
    have hfle : ∀ d, ((sessionGroup B shuffle d).filter
        (fun q => q.nivel == T)).length ≤ QUESTIONS_PER_DIFFICULTY :=
      fun d => (List.length_filter_le _ _).trans
        (sessionGroup_length_le B shuffle d)
    cases T with
    | Facil =>
      rw [filter_sessionGroup_ne B shuffle hsh
          (by decide : Difficulty.Medio ≠ Difficulty.Facil),
        filter_sessionGroup_ne B shuffle hsh
          (by decide : Difficulty.Dificil ≠ Difficulty.Facil),
        filter_sessionGroup_ne B shuffle hsh
          (by decide : Difficulty.Experto ≠ Difficulty.Facil)]
      have := hfle Difficulty.Facil
      simp only [List.length_nil]
      omega
    | Medio =>
      rw [filter_sessionGroup_ne B shuffle hsh
          (by decide : Difficulty.Facil ≠ Difficulty.Medio),
        filter_sessionGroup_ne B shuffle hsh
          (by decide : Difficulty.Dificil ≠ Difficulty.Medio),
        filter_sessionGroup_ne B shuffle hsh
          (by decide : Difficulty.Experto ≠ Difficulty.Medio)]
      have := hfle Difficulty.Medio
      simp only [List.length_nil]
      omega
    | Dificil =>
      rw [filter_sessionGroup_ne B shuffle hsh
          (by decide : Difficulty.Facil ≠ Difficulty.Dificil),
        filter_sessionGroup_ne B shuffle hsh
          (by decide : Difficulty.Medio ≠ Difficulty.Dificil),
        filter_sessionGroup_ne B shuffle hsh
          (by decide : Difficulty.Experto ≠ Difficulty.Dificil)]
      have := hfle Difficulty.Dificil
      simp only [List.length_nil]
      omega
    | Experto =>
      rw [filter_sessionGroup_ne B shuffle hsh
          (by decide : Difficulty.Facil ≠ Difficulty.Experto),
        filter_sessionGroup_ne B shuffle hsh
          (by decide : Difficulty.Medio ≠ Difficulty.Experto),
        filter_sessionGroup_ne B shuffle hsh
          (by decide : Difficulty.Dificil ≠ Difficulty.Experto)]
      have := hfle Difficulty.Experto
      simp only [List.length_nil]
      omega
  · intro q hq
    rw [sel_eq_flatMap B shuffle hsh] at hq
    obtain ⟨d, _, hd⟩ := List.mem_flatMap.mp hq
    exact (mem_sessionGroup B shuffle hsh d q hd).2

/-- Witness for C4 at the identity shuffle: selection from the
one-question bank stays inside the bank, and the empty bank yields the
empty session. -/
theorem C4_buildSession_witness :
    (∀ q, q ∈ selectSessionQuestions [sampleQ] (fun _ l => l) →
      q ∈ [sampleQ]) ∧
    selectSessionQuestions [] (fun _ l => l) = [] := by
  have h := C4_buildSession [sampleQ] (fun _ l => l)
    (fun _ l => List.Perm.refl l)
  exact ⟨h.2.1, h.2.2.2⟩

/-- Witness for C2: answering `sampleQ` correctly from `answeringState`
yields score 5 = 0 + the earned points of the trace. -/
theorem C2_score_accounting_witness :
    (run answeringState [GameEvent.submitAnswer "Moises"]).score = 5 :=
  (C2_score_accounting answeringState [GameEvent.submitAnswer "Moises"]
    GameEvent.endGame).1.trans (by decide)

/-- Witness for C3: the tier-Facil availability list of the one-question
session is a subsequence of that session. -/
theorem C3_availability_witness :
    (availableQuestionsByDifficulty [sampleQ] ∅
      Difficulty.Facil).Sublist [sampleQ] :=
  (C3_availability [sampleQ] ∅ Difficulty.Facil).1

/-- Witness for C7: starting a game from `usedUpState` with the identity
shuffle resets the score and reaches `ChoosingDifficulty`. -/
theorem C7_startGame_witness :
    (handleStartGame usedUpState (fun _ l => l)).score = 0 ∧
    (handleStartGame usedUpState (fun _ l => l)).gameState =
      GameState.ChoosingDifficulty :=
  ⟨(C7_startGame usedUpState (fun _ l => l)).1,
   (C7_startGame usedUpState (fun _ l => l)).2.2.2.2.2.2.1⟩

/-- Witness for C9: ending the game from `answeringState` reaches
`GameOver` and keeps the score. -/
theorem C9_endGame_witness :
    (handleEndGame answeringState).gameState = GameState.GameOver ∧
    (handleEndGame answeringState).score = answeringState.score :=
  ⟨(C9_endGame answeringState).1, (C9_endGame answeringState).2.1⟩
